import Mathlib

/-!
Verification development for the poursteady_error_log repository.

The Python sources are embedded shallowly: strings become `List Char`,
pure helpers become Lean functions, and the effectful SSH code becomes
functions over an explicit environment describing the outcome of each
network operation, returning a result together with a trace of the
resource events (connection attempts, open, close, backoff sleeps).
-/

/-! ### Python string primitives (ASCII model) -/

/-- Whitespace characters removed by Python str.strip with no argument
(ASCII fragment). -/
def isPySpace (c : Char) : Bool :=
  c = ' ' || c = '\t' || c = '\n' || c = '\r' || c = '\x0b' || c = '\x0c'

/-- Python str.lstrip. -/
def pyLStrip (s : List Char) : List Char := s.dropWhile isPySpace

/-- Python str.rstrip. -/
def pyRStrip (s : List Char) : List Char := (s.reverse.dropWhile isPySpace).reverse

/-- Python str.strip. -/
def pyStrip (s : List Char) : List Char := pyRStrip (pyLStrip s)

/-- Python str.upper on the basic latin range. -/
def pyUpper (s : List Char) : List Char := s.map Char.toUpper

/-- Python str.isdigit restricted to ASCII digits: nonempty and all digits. -/
def pyIsDigit (s : List Char) : Bool := !s.isEmpty && s.all Char.isDigit

/-- Character list of a string literal. -/
def chars (s : String) : List Char := s.toList

/-- Split at every occurrence of the separator character; mirrors Python
str.split(sep) for a one-character separator (always returns at least one
piece). -/
def splitOnChar (sep : Char) : List Char → List (List Char)
  | [] => [[]]
  | c :: cs =>
    if c = sep then [] :: splitOnChar sep cs
    else
      match splitOnChar sep cs with
      | [] => [[c]]
      | l :: ls => (c :: l) :: ls

/-- Python str.split(sep, 1): the pieces before and after the first
occurrence of the separator; if the separator is absent the whole input is
the first piece and the second is empty. -/
def splitFirst (sep : Char) : List Char → List Char × List Char
  | [] => ([], [])
  | c :: cs =>
    if c = sep then ([], cs)
    else
      let p := splitFirst sep cs
      (c :: p.1, p.2)

/-- Numeric value of an ASCII digit character. -/
def digitVal (c : Char) : Nat := c.toNat - 48

/-- Natural number denoted by a list of ASCII digit characters. -/
def natOfDigits (s : List Char) : Nat := s.foldl (fun a c => 10 * a + digitVal c) 0

/-- Python int(...) on an already stripped string: optional sign followed by
a nonempty digit string; anything else raises ValueError. -/
def pyInt (s : List Char) : Except (List Char) Int :=
  match s with
  | '-' :: ds =>
    if pyIsDigit ds then .ok (-(natOfDigits ds : Int))
    else .error (chars "invalid literal for int()")
  | '+' :: ds =>
    if pyIsDigit ds then .ok (natOfDigits ds : Int)
    else .error (chars "invalid literal for int()")
  | ds =>
    if pyIsDigit ds then .ok (natOfDigits ds : Int)
    else .error (chars "invalid literal for int()")

/-! ### Character-level lemmas -/

theorem char_toNat_inj {a b : Char} (h : a.toNat = b.toNat) : a = b := by
  have := congrArg Char.ofNat h
  rwa [Char.ofNat_toNat, Char.ofNat_toNat] at this

theorem char_toNat_ofNat (n : Nat) (h : n.isValidChar) : (Char.ofNat n).toNat = n := by
  simp [Char.ofNat, h]
  rfl

theorem charEq_iff_toNat (c d : Char) : (c = d) ↔ (c.toNat = d.toNat) :=
  ⟨fun h => by rw [h], char_toNat_inj⟩

theorem isPySpace_iff (c : Char) : isPySpace c = true ↔
    (c.toNat = 32 ∨ c.toNat = 9 ∨ c.toNat = 10 ∨ c.toNat = 13
      ∨ c.toNat = 11 ∨ c.toNat = 12) := by
  unfold isPySpace
  simp only [Bool.or_eq_true, decide_eq_true_eq, charEq_iff_toNat,
    show (' ').toNat = 32 from rfl, show ('\t').toNat = 9 from rfl,
    show ('\n').toNat = 10 from rfl, show ('\x0d').toNat = 13 from rfl,
    show ('\x0b').toNat = 11 from rfl, show ('\x0c').toNat = 12 from rfl]
  tauto

theorem toUpper_of_lower {c : Char} (h : 97 ≤ c.toNat ∧ c.toNat ≤ 122) :
    c.toUpper = Char.ofNat (c.toNat - 32) := by
  unfold Char.toUpper
  rw [if_pos ⟨h.1, h.2⟩]

theorem toUpper_of_not_lower {c : Char} (h : ¬(97 ≤ c.toNat ∧ c.toNat ≤ 122)) :
    c.toUpper = c := by
  unfold Char.toUpper
  rw [if_neg (by exact fun hc => h ⟨hc.1, hc.2⟩)]

theorem isPySpace_false_of_bounds {c : Char}
    (h : ¬(c.toNat = 32 ∨ c.toNat = 9 ∨ c.toNat = 10 ∨ c.toNat = 13
      ∨ c.toNat = 11 ∨ c.toNat = 12)) :
    isPySpace c = false := by
  cases hx : isPySpace c with
  | false => rfl
  | true => exact absurd ((isPySpace_iff c).mp hx) h

theorem isPySpace_toUpper (c : Char) : isPySpace c.toUpper = isPySpace c := by
  by_cases h : 97 ≤ c.toNat ∧ c.toNat ≤ 122
  · have hvalid : (c.toNat - 32).isValidChar := by left; omega
    have hn : (Char.ofNat (c.toNat - 32)).toNat = c.toNat - 32 := char_toNat_ofNat _ hvalid
    rw [toUpper_of_lower h]
    rw [isPySpace_false_of_bounds (c := Char.ofNat (c.toNat - 32)) (by rw [hn]; omega)]
    rw [isPySpace_false_of_bounds (by omega)]
  · rw [toUpper_of_not_lower h]

theorem toUpper_toUpper (c : Char) : c.toUpper.toUpper = c.toUpper := by
  by_cases h : 97 ≤ c.toNat ∧ c.toNat ≤ 122
  · have hvalid : (c.toNat - 32).isValidChar := by left; omega
    have hn : (Char.ofNat (c.toNat - 32)).toNat = c.toNat - 32 := char_toNat_ofNat _ hvalid
    rw [toUpper_of_lower h, toUpper_of_not_lower (by rw [hn]; omega)]
  · rw [toUpper_of_not_lower h, toUpper_of_not_lower h]

/-! ### Lemmas about strip and upper -/

theorem dropWhile_map_comm (f : Char → Char) (p : Char → Bool)
    (hf : ∀ c, p (f c) = p c) (l : List Char) :
    List.dropWhile p (l.map f) = (List.dropWhile p l).map f := by
  induction l with
  | nil => rfl
  | cons c cs ih =>
    simp only [List.map_cons, List.dropWhile_cons, hf c]
    by_cases h : p c = true
    · simp [h, ih]
    · simp [h]

theorem head_false_of_dropWhile_eq_self {p : Char → Bool} {c : Char} {t : List Char}
    (h : List.dropWhile p (c :: t) = c :: t) : p c = false := by
  cases hx : p c with
  | false => rfl
  | true =>
    rw [List.dropWhile_cons, hx] at h
    simp only [if_true] at h
    have := (List.dropWhile_suffix (l := t) p).sublist.length_le
    have hlen := congrArg List.length h
    simp at hlen
    omega

theorem pyLStrip_eq_self_of_head (s : List Char)
    (h : ∀ c, s.head? = some c → isPySpace c = false) : pyLStrip s = s := by
  unfold pyLStrip
  cases s with
  | nil => rfl
  | cons c cs =>
    rw [List.dropWhile_cons, h c rfl]
    simp

theorem pyRStrip_eq_self_of_getLast (s : List Char)
    (h : ∀ c, s.getLast? = some c → isPySpace c = false) : pyRStrip s = s := by
  unfold pyRStrip
  have hh : ∀ c, s.reverse.head? = some c → isPySpace c = false := by
    intro c hc
    exact h c (by rwa [List.head?_reverse] at hc)
  have := pyLStrip_eq_self_of_head s.reverse hh
  unfold pyLStrip at this
  rw [this, List.reverse_reverse]

theorem pyStrip_eq_self_of_ends (s : List Char)
    (h1 : ∀ c, s.head? = some c → isPySpace c = false)
    (h2 : ∀ c, s.getLast? = some c → isPySpace c = false) : pyStrip s = s := by
  unfold pyStrip
  rw [pyLStrip_eq_self_of_head s h1, pyRStrip_eq_self_of_getLast s h2]

theorem pyLStrip_length_le (s : List Char) : (pyLStrip s).length ≤ s.length :=
  (List.dropWhile_suffix _).sublist.length_le

theorem pyRStrip_length_le (s : List Char) : (pyRStrip s).length ≤ s.length := by
  unfold pyRStrip
  have := (List.dropWhile_suffix (l := s.reverse) isPySpace).sublist.length_le
  simpa using this

theorem pyLStrip_eq_self_of_strip (s : List Char) (h : pyStrip s = s) :
    pyLStrip s = s := by
  have h1 : (pyStrip s).length ≤ (pyLStrip s).length := pyRStrip_length_le _
  have h2 : (pyLStrip s).length ≤ s.length := pyLStrip_length_le s
  rw [h] at h1
  unfold pyLStrip at h1 h2 ⊢
  exact (List.dropWhile_suffix _).sublist.eq_of_length_le (by omega)

theorem pyRStrip_eq_self_of_strip (s : List Char) (h : pyStrip s = s) :
    pyRStrip s = s := by
  have hl : pyLStrip s = s := pyLStrip_eq_self_of_strip s h
  unfold pyStrip at h
  rwa [hl] at h

theorem head_not_space_of_strip (s : List Char) (h : pyStrip s = s) :
    ∀ c, s.head? = some c → isPySpace c = false := by
  intro c hc
  have hl : pyLStrip s = s := pyLStrip_eq_self_of_strip s h
  cases s with
  | nil => simp at hc
  | cons a t =>
    simp only [List.head?_cons, Option.some.injEq] at hc
    subst hc
    exact head_false_of_dropWhile_eq_self hl

theorem getLast_not_space_of_strip (s : List Char) (h : pyStrip s = s) :
    ∀ c, s.getLast? = some c → isPySpace c = false := by
  intro c hc
  have hr : pyRStrip s = s := pyRStrip_eq_self_of_strip s h
  rw [← List.head?_reverse] at hc
  have hrev : List.dropWhile isPySpace s.reverse = s.reverse := by
    have := congrArg List.reverse hr
    unfold pyRStrip at this
    rwa [List.reverse_reverse] at this
  cases hs : s.reverse with
  | nil => rw [hs] at hc; simp at hc
  | cons a t =>
    rw [hs] at hc hrev
    simp only [List.head?_cons, Option.some.injEq] at hc
    subst hc
    exact head_false_of_dropWhile_eq_self hrev

theorem pyStrip_pyUpper_comm (s : List Char) :
    pyStrip (pyUpper s) = pyUpper (pyStrip s) := by
  unfold pyStrip pyLStrip pyRStrip pyUpper
  rw [dropWhile_map_comm Char.toUpper isPySpace isPySpace_toUpper s,
      ← List.map_reverse, dropWhile_map_comm Char.toUpper isPySpace isPySpace_toUpper,
      ← List.map_reverse]

theorem pyStrip_idem (s : List Char) : pyStrip (pyStrip s) = pyStrip s := by
  have hda : List.dropWhile isPySpace (pyLStrip s) = pyLStrip s := by
    unfold pyLStrip; rw [List.dropWhile_idempotent]
  have h2 : pyRStrip (pyStrip s) = pyStrip s := by
    unfold pyStrip
    have := congrArg List.reverse (List.dropWhile_idempotent (p := isPySpace)
      (l := (pyLStrip s).reverse))
    unfold pyRStrip
    rw [List.reverse_reverse]
    exact this
  have hpre : List.IsPrefix (pyStrip s) (pyLStrip s) := by
    unfold pyStrip pyRStrip
    have hsfx : List.IsSuffix (List.dropWhile isPySpace (pyLStrip s).reverse)
        (pyLStrip s).reverse := List.dropWhile_suffix _
    have := List.reverse_prefix.mpr hsfx
    rwa [List.reverse_reverse] at this
  have h1 : pyLStrip (pyStrip s) = pyStrip s := by
    cases hbc : pyStrip s with
    | nil => rfl
    | cons c t =>
      apply pyLStrip_eq_self_of_head
      intro d hd
      simp only [List.head?_cons, Option.some.injEq] at hd
      subst hd
      obtain ⟨u, hu⟩ := hpre
      rw [hbc] at hu
      rw [← hu] at hda
      simp only [List.cons_append] at hda
      exact head_false_of_dropWhile_eq_self hda
  calc pyStrip (pyStrip s) = pyRStrip (pyLStrip (pyStrip s)) := rfl
    _ = pyRStrip (pyStrip s) := by rw [h1]
    _ = pyStrip s := h2

theorem pyUpper_idem (s : List Char) : pyUpper (pyUpper s) = pyUpper s := by
  unfold pyUpper
  rw [List.map_map, show Char.toUpper ∘ Char.toUpper = Char.toUpper from funext toUpper_toUpper]

/-! ### Embedding of src/models.py -/

/-- Record of one machine from models.Machine. -/
structure Machine where
  name : List Char
  ip : List Char
deriving DecidableEq, Inhabited

/-- models.normalize_name: (name or "").strip().upper(). -/
def normalize_name (name : List Char) : List Char := pyUpper (pyStrip name)

/-- Full anchored match of models.PS1_RE, the pattern PS followed by exactly
four digits, against an already normalized (hence newline-free at the end)
string. -/
def ps1_pattern (s : List Char) : Bool :=
  s.take 2 == ['P', 'S'] && (s.drop 2).all Char.isDigit && s.length == 6

/-- Full anchored match of models.PS2_RE, the pattern PS followed by exactly
seven digits. -/
def ps2_pattern (s : List Char) : Bool :=
  s.take 2 == ['P', 'S'] && (s.drop 2).all Char.isDigit && s.length == 9

/-- models.is_ps1_name. -/
def is_ps1_name (name : List Char) : Bool := ps1_pattern (normalize_name name)

/-- models.is_ps2_name. -/
def is_ps2_name (name : List Char) : Bool := ps2_pattern (normalize_name name)

/-- models.infer_model_from_name. -/
def infer_model_from_name (name : List Char) : Option (List Char) :=
  if is_ps1_name name then some (chars "PS1")
  else if is_ps2_name name then some (chars "PS2")
  else none

theorem normalize_name_idem (s : List Char) :
    normalize_name (normalize_name s) = normalize_name s := by
  unfold normalize_name
  rw [pyStrip_pyUpper_comm, pyStrip_idem, pyUpper_idem]

theorem pyStrip_of_normalize_fix (s : List Char) (h : normalize_name s = s) :
    pyStrip s = s := by
  calc pyStrip s = pyStrip (normalize_name s) := by rw [h]
    _ = pyUpper (pyStrip (pyStrip s)) := by unfold normalize_name; rw [pyStrip_pyUpper_comm]
    _ = pyUpper (pyStrip s) := by rw [pyStrip_idem]
    _ = normalize_name s := rfl
    _ = s := h

/-! ### Lemmas about splitting -/

theorem splitOnChar_nil (sep : Char) : splitOnChar sep [] = [[]] := rfl

theorem splitOnChar_cons (sep c : Char) (cs : List Char) :
    splitOnChar sep (c :: cs) =
      if c = sep then [] :: splitOnChar sep cs
      else
        match splitOnChar sep cs with
        | [] => [[c]]
        | l :: ls => (c :: l) :: ls := rfl

theorem splitOnChar_ne_nil (sep : Char) (l : List Char) : splitOnChar sep l ≠ [] := by
  cases l with
  | nil => simp [splitOnChar_nil]
  | cons c cs =>
    rw [splitOnChar_cons]
    by_cases h : c = sep
    · simp [h]
    · simp only [if_neg h]
      cases splitOnChar sep cs <;> simp

theorem splitOnChar_append_cons (sep : Char) (a b : List Char) (h : sep ∉ a) :
    splitOnChar sep (a ++ sep :: b) = a :: splitOnChar sep b := by
  induction a with
  | nil => simp [splitOnChar_cons]
  | cons c cs ih =>
    have hc : ¬(c = sep) := fun hc => h (by rw [hc]; exact List.mem_cons_self sep cs)
    have hcs : sep ∉ cs := fun hm => h (List.mem_cons_of_mem c hm)
    rw [List.cons_append, splitOnChar_cons, if_neg hc, ih hcs]

theorem splitOnChar_of_not_mem (sep : Char) (a : List Char) (h : sep ∉ a) :
    splitOnChar sep a = [a] := by
  induction a with
  | nil => rfl
  | cons c cs ih =>
    have hc : ¬(c = sep) := fun hc => h (by rw [hc]; exact List.mem_cons_self sep cs)
    have hcs : sep ∉ cs := fun hm => h (List.mem_cons_of_mem c hm)
    rw [splitOnChar_cons, if_neg hc, ih hcs]

theorem splitFirst_cons (sep c : Char) (cs : List Char) :
    splitFirst sep (c :: cs) =
      if c = sep then ([], cs)
      else (c :: (splitFirst sep cs).1, (splitFirst sep cs).2) := rfl

theorem splitFirst_append_cons (sep : Char) (a b : List Char) (h : sep ∉ a) :
    splitFirst sep (a ++ sep :: b) = (a, b) := by
  induction a with
  | nil => simp [splitFirst_cons]
  | cons c cs ih =>
    have hc : ¬(c = sep) := fun hc => h (by rw [hc]; exact List.mem_cons_self sep cs)
    have hcs : sep ∉ cs := fun hm => h (List.mem_cons_of_mem c hm)
    rw [List.cons_append, splitFirst_cons, if_neg hc, ih hcs]

/-! ### Embedding of src/hosts_repo.py

The repository object reads and writes a hosts file; the file content is
passed explicitly as a character list (an existing, readable file is
assumed, matching the load path guarded by exists()). -/

/-- Universal-newline translation performed by Python when a file is read in
text mode with the default newline handling: the pair CR LF and a lone CR
are both turned into a single LF. -/
def pyDecodeNewlines : List Char → List Char
  | [] => []
  | [c] => if c = '\r' then ['\n'] else [c]
  | c :: d :: cs =>
    if c = '\r' then
      if d = '\n' then '\n' :: pyDecodeNewlines cs
      else '\n' :: pyDecodeNewlines (d :: cs)
    else c :: pyDecodeNewlines (d :: cs)

namespace HostsRepo

/-- Machine records parsed from the data lines of HostsRepo.load: a line
containing a comma is split at the first comma into a normalized name and a
stripped ip; any other line is skipped. -/
def machinesOf (lns : List (List Char)) : List Machine :=
  lns.filterMap (fun line =>
    if ',' ∈ line then
      some ⟨normalize_name (splitFirst ',' line).1, pyStrip (splitFirst ',' line).2⟩
    else none)

/-- HostsRepo.load: the file is opened in text mode, so the raw content goes
through universal-newline decoding before readlines splits it at LF; then
strip all lines, drop blank ones; if the first remaining line starts
(case-insensitively) with SINCE=, take the part after the first = (stripped)
as the cutoff and parse the remaining lines as machines. -/
def load (content : List Char) : Option (List Char) × List Machine :=
  match ((splitOnChar '\n' (pyDecodeNewlines content)).map pyStrip).filter
      (fun x => !x.isEmpty) with
  | [] => (none, [])
  | l0 :: rest =>
    if (chars "SINCE=").isPrefixOf (pyUpper l0) then
      (some (pyStrip (splitFirst '=' l0).2), machinesOf rest)
    else
      (none, machinesOf (l0 :: rest))

/-- HostsRepo.write: the content written to the hosts file — a SINCE= line
followed by one normalized-name,ip line per machine. -/
def write (since : List Char) (machines : List Machine) : List Char :=
  chars "SINCE=" ++ since ++ '\n' ::
    (machines.map (fun m => normalize_name m.name ++ ',' :: m.ip ++ ['\n'])).flatten

end HostsRepo

/-! ### Embedding of src/collect_logs.py -/

/-- One parsed host record of collect_logs.read_hosts. -/
structure HostEntry where
  name : List Char
  ip : List Char
  username : Option (List Char)
  port : Option Int
deriving DecidableEq, Inhabited

/-- Message of the ValueError raised by read_hosts for a short line. -/
def hostLineError (ls : List Char) : List Char :=
  chars "Each line must be at least name,ip — bad line: " ++ ls

/-- Line loop of collect_logs.read_hosts: skip blank and #-comment lines,
split the rest on commas into stripped fields, require at least name,ip,
record optional nonempty username and port fields (int() on the port may
itself raise). -/
def readHostLines : List (List Char) → Except (List Char) (List HostEntry)
  | [] => .ok []
  | line :: rest =>
    let ls := pyStrip line
    if ls.isEmpty || (ls.head? == some '#') then readHostLines rest
    else
      let parts := (splitOnChar ',' ls).map pyStrip
      if parts.length < 2 then .error (hostLineError ls)
      else
        let p2 := parts.getD 2 []
        let p3 := parts.getD 3 []
        let uname : Option (List Char) := if p2 = [] then none else some p2
        let portE : Except (List Char) (Option Int) :=
          if p3 = [] then .ok none else (pyInt p3).map some
        match portE with
        | .error e => .error e
        | .ok port =>
          match readHostLines rest with
          | .error e => .error e
          | .ok hs => .ok (⟨parts.getD 0 [], parts.getD 1 [], uname, port⟩ :: hs)

/-- collect_logs.read_hosts on the content of the targets file. -/
def read_hosts (content : List Char) : Except (List Char) (List HostEntry) :=
  readHostLines (splitOnChar '\n' content)

/-- Exceptions that the SSH paths can raise, as distinguished by the except
clauses of run_parser_on_host. -/
inductive PyExc where
  | auth
  | ssh (msg : List Char)
  | other (cls msg : List Char)
deriving DecidableEq

/-- Error description recorded by the except clauses of
run_parser_on_host. -/
def excText : PyExc → List Char
  | .auth => chars "Authentication failed (check key/password and username)."
  | .ssh m => chars "SSH error: " ++ m
  | .other cls m => chars "Connection/run error: " ++ cls ++ chars ": " ++ m

/-- Outcome of the paramiko connect call for one host. -/
inductive ConnectOutcome where
  | ok
  | raise (e : PyExc)
deriving DecidableEq

/-- Remote data observed when the exec/read phase succeeds. -/
structure ExecOk where
  exitStatus : Int
  out : List Char
  err : List Char
deriving DecidableEq

/-- Outcome of the exec_command / read phase for one host. -/
inductive ExecOutcome where
  | ok (r : ExecOk)
  | raise (e : PyExc)
deriving DecidableEq

/-- Environment for one call of run_parser_on_host: what the network does. -/
structure HostEnv where
  connect : ConnectOutcome
  exec : ExecOutcome
deriving DecidableEq

/-- Trace of resource events during one per-host execution: number of
connection attempts, whether a connection was opened, whether close() ran on
the opened connection, and number of backoff sleeps performed. -/
structure Trace where
  connectAttempts : Nat
  opened : Bool
  closed : Bool
  sleeps : Nat
deriving DecidableEq

/-- Defaults dictionary assembled in collect_logs.main from the
environment. -/
structure Defaults where
  username : Option (List Char)
  password : Option (List Char)
  key : Option (List Char)
  port : Int
  useSudo : Bool
deriving DecidableEq

/-- Result dictionary returned by run_parser_on_host. -/
structure HostResult where
  name : List Char
  ip : List Char
  username : Option (List Char)
  port : Int
  ok : Bool
  output : List Char
  error : Option (List Char)
  exitStatus : Option Int
deriving DecidableEq

/-- Python x or y on optional strings, where None and the empty string are
falsy. -/
def pyOrStrOpt (a b : Option (List Char)) : Option (List Char) :=
  match a with
  | some s => if s = [] then b else some s
  | none => b

/-- Python int(x or d) for an optional integer x, where None and 0 are
falsy. -/
def pyOrIntOpt (a : Option Int) (b : Int) : Int :=
  match a with
  | some n => if n = 0 then b else n
  | none => b

/-- Error recorded when neither the host line nor the environment provides a
username. -/
def noUsernameMsg : List Char := chars "No username (set in hosts.txt or SSH_USERNAME in .env)"

/-- collect_logs.run_parser_on_host: build the base result; if no username
is available record the error and return; otherwise connect, run the parser
remotely (the client is closed by the finally block on both exec paths), and
capture every exception into the result. The function makes a single
connection attempt and never sleeps. -/
def run_parser_on_host (host : HostEntry) (parser_text since_cutoff : List Char)
    (timeout_secs : Int) (defaults : Defaults) (env : HostEnv) : HostResult × Trace :=
  let username := pyOrStrOpt host.username defaults.username
  let port := pyOrIntOpt host.port defaults.port
  let base : HostResult := ⟨host.name, host.ip, username, port, false, [], none, none⟩
  if username = none ∨ username = some [] then
    ({ base with error := some noUsernameMsg }, ⟨0, false, false, 0⟩)
  else
    match env.connect with
    | .raise e => ({ base with error := some (excText e) }, ⟨1, false, false, 0⟩)
    | .ok =>
      match env.exec with
      | .raise e => ({ base with error := some (excText e) }, ⟨1, true, true, 0⟩)
      | .ok r =>
        ({ base with
            ok := r.exitStatus == 0,
            output := pyStrip r.out,
            error := if r.exitStatus = 0 then none else some (pyStrip r.err),
            exitStatus := some r.exitStatus }, ⟨1, true, true, 0⟩)

/-- Result collection of collect_logs.main: every host is submitted to the
pool and results are appended in completion order, given by the index list
order (a permutation of the submission indices). -/
def dispatchResults (hosts : List HostEntry) (parser_text since_cutoff : List Char)
    (timeout_secs : Int) (defaults : Defaults) (envOf : Nat → HostEnv)
    (order : List Nat) : List HostResult :=
  order.map (fun i => (run_parser_on_host (hosts.getD i default) parser_text since_cutoff
    timeout_secs defaults (envOf i)).1)

/-! ### Embeddings of src/remote_error_log_parser.py and src/error_log_parser.py -/

/-- Outcome of the exec_command plus stdout.read() phase for the simple log
clients. -/
inductive ReadOutcome where
  | ok (out : List Char)
  | raise (e : PyExc)
deriving DecidableEq

/-- Environment for one simple SSH log retrieval. -/
structure SimpleEnv where
  connect : ConnectOutcome
  readOut : ReadOutcome
deriving DecidableEq

/-- remote_error_log_parser.ssh_run: a failed connect is caught and yields
None; after a successful connect, exec_command / read runs without a
try/finally, so an exception there propagates and close() is never called;
on success the client is closed and the stripped output (or None if blank)
is returned. -/
def ssh_run (ip user passwd since : List Char) (env : SimpleEnv) :
    Except PyExc (Option (List Char)) × Trace :=
  match env.connect with
  | .raise _ => (.ok none, ⟨1, false, false, 0⟩)
  | .ok =>
    match env.readOut with
    | .raise e => (.error e, ⟨1, true, false, 0⟩)
    | .ok out =>
      (.ok (if pyStrip out = [] then none else some (pyStrip out)), ⟨1, true, true, 0⟩)

namespace ErrorLogParser

/-- error_log_parser.ErrorLogParser.ssh_run_ps1: the whole body is wrapped in
try/except Exception/finally, so every exception yields None and close() runs
on every path. -/
def ssh_run_ps1 (machine : Machine) (username password since : List Char)
    (env : SimpleEnv) : Option (List Char) × Trace :=
  match env.connect with
  | .raise _ => (none, ⟨1, false, true, 0⟩)
  | .ok =>
    match env.readOut with
    | .raise _ => (none, ⟨1, true, true, 0⟩)
    | .ok out => (if pyStrip out = [] then none else some (pyStrip out), ⟨1, true, true, 0⟩)

end ErrorLogParser

/-! ### Scheduled-start gate of collect_logs.main -/

/-- Seconds actually slept by the gate in collect_logs.main: the delta from
now to the requested time if positive, otherwise nothing. -/
def scheduled_gate_wait (now tWhen : Int) : Int :=
  if tWhen - now > 0 then tWhen - now else 0

/-- Time at which dispatch begins: now plus whatever the gate slept. -/
def dispatch_start (now tWhen : Int) : Int := now + scheduled_gate_wait now tWhen

/-! ### Bounded worker pool

Modelled from the spec: the Fleet Dispatcher submits all targets up front to
a bounded worker pool of exactly `conc` workers
(concurrent.futures.ThreadPoolExecutor in collect_logs.main is external
library code). With equal-duration tasks a worker picks up the next pending
task the moment it finishes the previous one, so task `i` starts at
`(i / conc) * dur`. -/

/-- Start time of task `i` in the bounded pool schedule. -/
def poolStart (conc dur i : Nat) : Nat := (i / conc) * dur

/-- Tasks executing at time `t`: started and not yet finished. -/
def inFlight (conc dur n t : Nat) : Finset ℕ :=
  (Finset.range n).filter (fun i => poolStart conc dur i ≤ t ∧ t < poolStart conc dur i + dur)

/-- Completion time of the whole dispatch. -/
def poolMakespan (conc dur n : Nat) : Nat :=
  if n = 0 then 0 else poolStart conc dur (n - 1) + dur

/-! ### Embedding of main.parse_since_input (src/main.py)

The strptime calls are modelled after CPython _strptime for the five fixed
format strings: %Y is exactly four digits, %m %d %H %M are ordered
one-or-two–digit alternations, a literal space matches one or more
whitespace characters, literal T matches case-insensitively, and the match
must consume the whole string; the resulting calendar fields are validated
as the datetime constructor does. strftime("%Y%m%d%H%M") zero-pads the four
small fields to two digits and prints the year as a plain decimal number
(no padding), as CPython does on the supported platforms. -/

/-- Calendar value produced by a successful strptime. -/
structure DateTimeM where
  year : Nat
  month : Nat
  day : Nat
  hour : Nat
  minute : Nat
deriving DecidableEq

/-- Gregorian leap-year rule used by datetime. -/
def isLeapYear (y : Nat) : Bool :=
  decide ((y % 4 = 0 ∧ ¬ y % 100 = 0) ∨ y % 400 = 0)

/-- Days in a month, as validated by the datetime constructor. -/
def daysInMonth (y m : Nat) : Nat :=
  if m = 2 then (if isLeapYear y then 29 else 28)
  else if m = 4 ∨ m = 6 ∨ m = 9 ∨ m = 11 then 30
  else 31

/-- Validation performed by the datetime constructor (MINYEAR = 1,
MAXYEAR = 9999); an out-of-range field raises ValueError, which strptime
propagates and parse_since_input catches. -/
def mkDateTime (y m d h mi : Nat) : Option DateTimeM :=
  if 1 ≤ y ∧ y ≤ 9999 ∧ 1 ≤ m ∧ m ≤ 12 ∧ 1 ≤ d ∧ d ≤ daysInMonth y m
      ∧ h ≤ 23 ∧ mi ≤ 59
  then some ⟨y, m, d, h, mi⟩ else none

/-- The %Y directive: exactly four digits. -/
def parseYear4 : List Char → Option (Nat × List Char)
  | a :: b :: c :: d :: rest =>
    if a.isDigit = true ∧ b.isDigit = true ∧ c.isDigit = true ∧ d.isDigit = true then
      some (1000 * digitVal a + 100 * digitVal b + 10 * digitVal c + digitVal d, rest)
    else none
  | _ => none

/-- A literal separator character. -/
def parseSep (sep : Char) : List Char → Option (List Char)
  | c :: rest => if c = sep then some rest else none
  | [] => none

/-- A literal whitespace in the format: one or more whitespace characters. -/
def parseWs : List Char → Option (List Char)
  | c :: rest => if isPySpace c = true then some (rest.dropWhile isPySpace) else none
  | [] => none

/-- The literal T of the ISO-style format, matched case-insensitively. -/
def parseTSep : List Char → Option (List Char)
  | c :: rest => if c = 'T' ∨ c = 't' then some rest else none
  | [] => none

/-- Ordered alternatives of the %m class 1[0-2] | 0[1-9] | [1-9]. -/
def monthCandidates : List Char → List (Nat × List Char)
  | a :: b :: rest =>
    (if a = '1' ∧ b.isDigit = true ∧ digitVal b ≤ 2 then [(10 + digitVal b, rest)] else []) ++
    (if a = '0' ∧ b.isDigit = true ∧ 1 ≤ digitVal b then [(digitVal b, rest)] else []) ++
    (if a.isDigit = true ∧ 1 ≤ digitVal a then [(digitVal a, b :: rest)] else [])
  | [a] => if a.isDigit = true ∧ 1 ≤ digitVal a then [(digitVal a, [])] else []
  | [] => []

/-- Ordered alternatives of the %d class 3[01] | [12]\d | 0[1-9] | [1-9]. -/
def dayCandidates : List Char → List (Nat × List Char)
  | a :: b :: rest =>
    (if a = '3' ∧ b.isDigit = true ∧ digitVal b ≤ 1 then [(30 + digitVal b, rest)] else []) ++
    (if (a = '1' ∨ a = '2') ∧ b.isDigit = true
      then [(10 * digitVal a + digitVal b, rest)] else []) ++
    (if a = '0' ∧ b.isDigit = true ∧ 1 ≤ digitVal b then [(digitVal b, rest)] else []) ++
    (if a.isDigit = true ∧ 1 ≤ digitVal a then [(digitVal a, b :: rest)] else [])
  | [a] => if a.isDigit = true ∧ 1 ≤ digitVal a then [(digitVal a, [])] else []
  | [] => []

/-- Ordered alternatives of the %H class 2[0-3] | [0-1]\d | \d. -/
def hourCandidates : List Char → List (Nat × List Char)
  | a :: b :: rest =>
    (if a = '2' ∧ b.isDigit = true ∧ digitVal b ≤ 3 then [(20 + digitVal b, rest)] else []) ++
    (if (a = '0' ∨ a = '1') ∧ b.isDigit = true
      then [(10 * digitVal a + digitVal b, rest)] else []) ++
    (if a.isDigit = true then [(digitVal a, b :: rest)] else [])
  | [a] => if a.isDigit = true then [(digitVal a, [])] else []
  | [] => []

/-- Ordered alternatives of the %M class [0-5]\d | \d. -/
def minuteCandidates : List Char → List (Nat × List Char)
  | a :: b :: rest =>
    (if a.isDigit = true ∧ digitVal a ≤ 5 ∧ b.isDigit = true
      then [(10 * digitVal a + digitVal b, rest)] else []) ++
    (if a.isDigit = true then [(digitVal a, b :: rest)] else [])
  | [a] => if a.isDigit = true then [(digitVal a, [])] else []
  | [] => []

/-- Shape of the middle separator between the date and the time. -/
inductive MidSep where
  | ws
  | tee
deriving DecidableEq

/-- Structural match of one format against the input, with the ordered
backtracking of the regex alternations; returns the fields and the
unconsumed remainder of the preferred match. -/
def strptimeRaw (sep : Char) (mid : MidSep) (withMinute : Bool) (s : List Char) :
    Option (Nat × Nat × Nat × Nat × Nat × List Char) :=
  match parseYear4 s with
  | none => none
  | some (y, r1) =>
    match parseSep sep r1 with
    | none => none
    | some r2 =>
      (monthCandidates r2).findSome? (fun mc =>
        match parseSep sep mc.2 with
        | none => none
        | some r4 =>
          (dayCandidates r4).findSome? (fun dc =>
            match (match mid with | .ws => parseWs dc.2 | .tee => parseTSep dc.2) with
            | none => none
            | some r6 =>
              (hourCandidates r6).findSome? (fun hc =>
                if withMinute then
                  match parseSep ':' hc.2 with
                  | none => none
                  | some r8 =>
                    (minuteCandidates r8).findSome? (fun nc =>
                      some (y, mc.1, dc.1, hc.1, nc.1, nc.2))
                else some (y, mc.1, dc.1, hc.1, 0, hc.2))))

/-- datetime.strptime for one format: the match must consume the whole input
(otherwise "unconverted data remains") and the fields must form a valid
datetime. -/
def strptimeOk (sep : Char) (mid : MidSep) (withMinute : Bool) (s : List Char) :
    Option DateTimeM :=
  match strptimeRaw sep mid withMinute s with
  | some (y, m, d, h, mi, rest) => if rest = [] then mkDateTime y m d h mi else none
  | none => none

/-- The candidate-format loop of parse_since_input, in source order. -/
def try_strptime_formats (t : List Char) : Option DateTimeM :=
  match strptimeOk '-' .ws true t with
  | some v => some v
  | none =>
  match strptimeOk '-' .tee true t with
  | some v => some v
  | none =>
  match strptimeOk '/' .ws true t with
  | some v => some v
  | none =>
  match strptimeOk '-' .ws false t with
  | some v => some v
  | none => strptimeOk '/' .ws false t

/-- Two-digit zero-padded field of strftime (%m %d %H %M). -/
def pad2 (n : Nat) : List Char := [Nat.digitChar (n / 10), Nat.digitChar (n % 10)]

/-- Decimal digits of a year in 1..9999 with no zero padding (the %Y
directive of CPython strftime on the supported platforms). -/
def yearDigits (y : Nat) : List Char :=
  if y < 10 then [Nat.digitChar y]
  else if y < 100 then [Nat.digitChar (y / 10), Nat.digitChar (y % 10)]
  else if y < 1000 then
    [Nat.digitChar (y / 100), Nat.digitChar (y / 10 % 10), Nat.digitChar (y % 10)]
  else
    [Nat.digitChar (y / 1000 % 10), Nat.digitChar (y / 100 % 10),
     Nat.digitChar (y / 10 % 10), Nat.digitChar (y % 10)]

/-- dt.strftime("%Y%m%d%H%M"). -/
def strftime_YmdHM (d : DateTimeM) : List Char :=
  yearDigits d.year ++ pad2 d.month ++ pad2 d.day ++ pad2 d.hour ++ pad2 d.minute

/-- main.parse_since_input. -/
def parse_since_input (user_text : List Char) : List Char :=
  let t := pyStrip user_text
  if t.isEmpty then chars "0"
  else if pyIsDigit t && t.length == 12 then t
  else if pyIsDigit t && t.length == 10 then t ++ chars "00"
  else
    match try_strptime_formats t with
    | some dtv => strftime_YmdHM dtv
    | none => chars "0"

/-! ### Evaluation lemmas for run_parser_on_host -/

theorem run_parser_on_host_no_username (host : HostEntry) (pt sc : List Char)
    (ts : Int) (df : Defaults) (env : HostEnv)
    (hu : pyOrStrOpt host.username df.username = none
      ∨ pyOrStrOpt host.username df.username = some []) :
    run_parser_on_host host pt sc ts df env =
      ({ name := host.name, ip := host.ip,
         username := pyOrStrOpt host.username df.username,
         port := pyOrIntOpt host.port df.port, ok := false, output := [],
         error := some noUsernameMsg, exitStatus := none }, ⟨0, false, false, 0⟩) := by
  simp only [run_parser_on_host, if_pos hu]

theorem run_parser_on_host_connect_raise (host : HostEntry) (pt sc : List Char)
    (ts : Int) (df : Defaults) (e : PyExc) (exo : ExecOutcome)
    (hu : ¬(pyOrStrOpt host.username df.username = none
      ∨ pyOrStrOpt host.username df.username = some [])) :
    run_parser_on_host host pt sc ts df ⟨.raise e, exo⟩ =
      ({ name := host.name, ip := host.ip,
         username := pyOrStrOpt host.username df.username,
         port := pyOrIntOpt host.port df.port, ok := false, output := [],
         error := some (excText e), exitStatus := none }, ⟨1, false, false, 0⟩) := by
  simp only [run_parser_on_host, if_neg hu]

theorem run_parser_on_host_exec_raise (host : HostEntry) (pt sc : List Char)
    (ts : Int) (df : Defaults) (e : PyExc)
    (hu : ¬(pyOrStrOpt host.username df.username = none
      ∨ pyOrStrOpt host.username df.username = some [])) :
    run_parser_on_host host pt sc ts df ⟨.ok, .raise e⟩ =
      ({ name := host.name, ip := host.ip,
         username := pyOrStrOpt host.username df.username,
         port := pyOrIntOpt host.port df.port, ok := false, output := [],
         error := some (excText e), exitStatus := none }, ⟨1, true, true, 0⟩) := by
  simp only [run_parser_on_host, if_neg hu]

theorem run_parser_on_host_exec_ok (host : HostEntry) (pt sc : List Char)
    (ts : Int) (df : Defaults) (r : ExecOk)
    (hu : ¬(pyOrStrOpt host.username df.username = none
      ∨ pyOrStrOpt host.username df.username = some [])) :
    run_parser_on_host host pt sc ts df ⟨.ok, .ok r⟩ =
      ({ name := host.name, ip := host.ip,
         username := pyOrStrOpt host.username df.username,
         port := pyOrIntOpt host.port df.port, ok := r.exitStatus == 0,
         output := pyStrip r.out,
         error := if r.exitStatus = 0 then none else some (pyStrip r.err),
         exitStatus := some r.exitStatus }, ⟨1, true, true, 0⟩) := by
  simp only [run_parser_on_host, if_neg hu]

/-! ### Claims -/

/-- Claim C9: device-family classification is exclusive and
normalization-invariant — is_ps1_name and is_ps2_name are never both true,
each gives the same answer on a name as on its normalization, and
infer_model_from_name returns exactly one of PS1, PS2 or none. -/
theorem infer_model_exclusive_and_normalization_invariant (name : List Char) :
    (is_ps1_name name && is_ps2_name name) = false ∧
    is_ps1_name (normalize_name name) = is_ps1_name name ∧
    is_ps2_name (normalize_name name) = is_ps2_name name ∧
    (infer_model_from_name name = some (chars "PS1") ∨
     infer_model_from_name name = some (chars "PS2") ∨
     infer_model_from_name name = none) := by
  refine ⟨?_, ?_, ?_, ?_⟩
  · cases h1 : is_ps1_name name with
    | false => rfl
    | true =>
      cases h2 : is_ps2_name name with
      | false => rfl
      | true =>
        exfalso
        unfold is_ps1_name ps1_pattern at h1
        unfold is_ps2_name ps2_pattern at h2
        simp only [Bool.and_eq_true, beq_iff_eq] at h1 h2
        omega
  · unfold is_ps1_name
    rw [normalize_name_idem]
  · unfold is_ps2_name
    rw [normalize_name_idem]
  · unfold infer_model_from_name
    by_cases h1 : is_ps1_name name = true
    · simp [h1]
    · by_cases h2 : is_ps2_name name = true
      · simp [h1, h2]
      · simp [h1, h2]

/-- Claim C6: the scheduling gate dispatches immediately when the requested
time is in the past and otherwise blocks until exactly the requested time,
so dispatch never begins earlier than a future request. -/
theorem scheduled_gate_start_bounds (now tWhen : Int) :
    (tWhen ≤ now → dispatch_start now tWhen = now ∧ scheduled_gate_wait now tWhen = 0) ∧
    (now < tWhen → dispatch_start now tWhen = tWhen ∧ tWhen ≤ dispatch_start now tWhen) := by
  constructor
  · intro h
    have hneg : ¬(tWhen - now > 0) := by omega
    unfold dispatch_start scheduled_gate_wait
    rw [if_neg hneg]
    omega
  · intro h
    have hpos : tWhen - now > 0 := by omega
    unfold dispatch_start scheduled_gate_wait
    rw [if_pos hpos]
    omega

/-- Witness for C6 at concrete times: a past request starts now, a future
request starts at the requested time. -/
theorem scheduled_gate_start_bounds_witness :
    (dispatch_start 100 50 = 100 ∧ scheduled_gate_wait 100 50 = 0) ∧
    (dispatch_start 100 200 = 200 ∧ (200 : Int) ≤ dispatch_start 100 200) :=
  ⟨(scheduled_gate_start_bounds 100 50).1 (by decide),
   (scheduled_gate_start_bounds 100 200).2 (by decide)⟩

/-- Claim C1: one ExecutionResult per submitted target — the per-target
executor run_parser_on_host is total (every exception is captured into the
result), so for any completion order of the submitted futures the aggregate
report has exactly len(targets) entries, however many targets fail. -/
theorem dispatch_one_result_per_target (hosts : List HostEntry)
    (parser_text since_cutoff : List Char) (timeout_secs : Int) (defaults : Defaults)
    (envOf : Nat → HostEnv) (order : List Nat)
    (h : order.Perm (List.range hosts.length)) :
    (dispatchResults hosts parser_text since_cutoff timeout_secs defaults envOf order).length
      = hosts.length := by
  unfold dispatchResults
  rw [List.length_map, h.length_eq, List.length_range]

/-- Witness for C1: two hosts — one failing to connect, one succeeding —
collected in reversed completion order still give exactly two results. -/
theorem dispatch_one_result_per_target_witness :
    (dispatchResults
      [⟨chars "PS1428", chars "192.168.1.148", none, none⟩,
       ⟨chars "PS1429", chars "192.168.1.149", some (chars "ubuntu"), none⟩]
      (chars "parser") (chars "202511052000") 180
      ⟨some (chars "ubuntu"), none, none, 22, false⟩
      (fun i => if i = 0 then ⟨.raise (.ssh (chars "timed out")), .raise .auth⟩
                else ⟨.ok, .ok ⟨0, chars "3 SAOBO Errors", []⟩⟩)
      [1, 0]).length = 2 :=
  dispatch_one_result_per_target _ _ _ _ _ _ _ (by decide)

/-- Claim C2 counterexample: run_parser_on_host performs no retry at all —
on a connection exception for a concrete target it returns after exactly one
connection attempt and zero backoff sleeps, contradicting the claimed
sleep-one-second-and-retry-up-to-maxAttempts behaviour. -/
theorem executor_retry_counterexample :
    (run_parser_on_host ⟨chars "PS1428", chars "192.168.1.148", some (chars "ubuntu"), none⟩
      (chars "parser") (chars "202511052000") 180 ⟨none, none, none, 22, false⟩
      ⟨.raise (.ssh (chars "Unable to connect to port 22")), .raise .auth⟩).2
      = ⟨1, false, false, 0⟩ := by
  decide

/-- Claim C2 (amended): run_parser_on_host makes at most one connection
attempt and never sleeps; on an exception it records the error description
in the result and returns it immediately, with no retry and no attempt
counter; a success is likewise never followed by a retry. -/
theorem executor_single_attempt_no_backoff (host : HostEntry)
    (parser_text since_cutoff : List Char) (timeout_secs : Int)
    (defaults : Defaults) (env : HostEnv) :
    (run_parser_on_host host parser_text since_cutoff timeout_secs defaults env).2.sleeps = 0 ∧
    (run_parser_on_host host parser_text since_cutoff timeout_secs defaults env).2.connectAttempts
      ≤ 1 ∧
    (∀ e, env.connect = .raise e →
      ¬(pyOrStrOpt host.username defaults.username = none
        ∨ pyOrStrOpt host.username defaults.username = some []) →
      (run_parser_on_host host parser_text since_cutoff timeout_secs defaults env).1.error
          = some (excText e) ∧
      (run_parser_on_host host parser_text since_cutoff timeout_secs defaults env).1.ok = false ∧
      (run_parser_on_host host parser_text since_cutoff timeout_secs defaults env).2.connectAttempts
          = 1) := by
  obtain ⟨conn, exo⟩ := env
  by_cases hu : pyOrStrOpt host.username defaults.username = none
      ∨ pyOrStrOpt host.username defaults.username = some []
  · rw [run_parser_on_host_no_username host parser_text since_cutoff timeout_secs defaults _ hu]
    exact ⟨rfl, Nat.zero_le 1, fun e _ hne => absurd hu hne⟩
  · cases conn with
    | raise e2 =>
      rw [run_parser_on_host_connect_raise host parser_text since_cutoff timeout_secs defaults
        e2 exo hu]
      refine ⟨rfl, Nat.le_refl 1, ?_⟩
      intro e he _
      cases he
      exact ⟨rfl, rfl, rfl⟩
    | ok =>
      cases exo with
      | raise e2 =>
        rw [run_parser_on_host_exec_raise host parser_text since_cutoff timeout_secs defaults
          e2 hu]
        refine ⟨rfl, Nat.le_refl 1, ?_⟩
        intro e he _
        cases he
      | ok r =>
        rw [run_parser_on_host_exec_ok host parser_text since_cutoff timeout_secs defaults
          r hu]
        refine ⟨rfl, Nat.le_refl 1, ?_⟩
        intro e he _
        cases he

/-- Witness for the amended C2 at a concrete failing target: no sleep
happened and the error was recorded after the single attempt. -/
theorem executor_single_attempt_no_backoff_witness :
    (run_parser_on_host ⟨chars "PS1430", chars "192.168.1.150", some (chars "ubuntu"), none⟩
      (chars "parser") (chars "202511052000") 180 ⟨none, none, none, 22, false⟩
      ⟨.raise (.ssh (chars "boom")), .raise .auth⟩).2.sleeps = 0 ∧
    (run_parser_on_host ⟨chars "PS1430", chars "192.168.1.150", some (chars "ubuntu"), none⟩
      (chars "parser") (chars "202511052000") 180 ⟨none, none, none, 22, false⟩
      ⟨.raise (.ssh (chars "boom")), .raise .auth⟩).1.error
        = some (excText (.ssh (chars "boom"))) := by
  refine ⟨(executor_single_attempt_no_backoff _ _ _ _ _ _).1, ?_⟩
  exact ((executor_single_attempt_no_backoff _ _ _ _ _ _).2.2 (.ssh (chars "boom")) rfl
    (by decide)).1

/-- Claim C3 counterexample: in remote_error_log_parser.ssh_run a concrete
run whose exec/read phase raises after a successful connect leaves the
connection open — the exception propagates and close() is never reached. -/
theorem ssh_run_leak_counterexample :
    (ssh_run (chars "192.168.1.148") (chars "ubuntu") (chars "pw") (chars "202511052000")
      ⟨.ok, .raise (.ssh (chars "Timeout opening channel."))⟩).2.opened = true ∧
    (ssh_run (chars "192.168.1.148") (chars "ubuntu") (chars "pw") (chars "202511052000")
      ⟨.ok, .raise (.ssh (chars "Timeout opening channel."))⟩).2.closed = false := by
  decide

/-- Claim C3 (amended): ErrorLogParser.ssh_run_ps1 and run_parser_on_host
close the connection on every path on which it was opened; ssh_run closes it
on every path on which no exception propagates, but leaks it when the
exec/read phase raises after a successful connect. -/
theorem connection_release_per_function (machine : Machine)
    (user passwd since ip : List Char) (env1 env2 : SimpleEnv)
    (host : HostEntry) (parser_text since_cutoff : List Char) (timeout_secs : Int)
    (defaults : Defaults) (env3 : HostEnv) :
    ((ErrorLogParser.ssh_run_ps1 machine user passwd since env1).2.opened = true →
      (ErrorLogParser.ssh_run_ps1 machine user passwd since env1).2.closed = true) ∧
    ((run_parser_on_host host parser_text since_cutoff timeout_secs defaults env3).2.opened
        = true →
      (run_parser_on_host host parser_text since_cutoff timeout_secs defaults env3).2.closed
        = true) ∧
    (∀ r, (ssh_run ip user passwd since env2).1 = .ok r →
      (ssh_run ip user passwd since env2).2.opened = true →
      (ssh_run ip user passwd since env2).2.closed = true) := by
  obtain ⟨conn1, rdo1⟩ := env1
  obtain ⟨conn2, rdo2⟩ := env2
  obtain ⟨conn3, exo3⟩ := env3
  refine ⟨?_, ?_, ?_⟩
  · cases conn1 with
    | raise e => intro; rfl
    | ok =>
      cases rdo1 with
      | raise e => intro; rfl
      | ok out => intro; rfl
  · by_cases hu : pyOrStrOpt host.username defaults.username = none
        ∨ pyOrStrOpt host.username defaults.username = some []
    · rw [run_parser_on_host_no_username host parser_text since_cutoff timeout_secs defaults
        _ hu]
      intro h
      exact absurd h (by simp)
    · cases conn3 with
      | raise e =>
        rw [run_parser_on_host_connect_raise host parser_text since_cutoff timeout_secs
          defaults e exo3 hu]
        intro h
        exact absurd h (by simp)
      | ok =>
        cases exo3 with
        | raise e =>
          rw [run_parser_on_host_exec_raise host parser_text since_cutoff timeout_secs
            defaults e hu]
          intro
          rfl
        | ok r =>
          rw [run_parser_on_host_exec_ok host parser_text since_cutoff timeout_secs
            defaults r hu]
          intro
          rfl
  · cases conn2 with
    | raise e =>
      intro r _ h
      exact absurd h (by simp [ssh_run])
    | ok =>
      cases rdo2 with
      | raise e =>
        intro r hr
        exact absurd hr (by simp [ssh_run])
      | ok out => intro r _ _; rfl

/-- Witness for the amended C3 at concrete environments that open a
connection in each of the three functions. -/
theorem connection_release_per_function_witness :
    (ErrorLogParser.ssh_run_ps1 ⟨chars "PS1428", chars "192.168.1.148"⟩
      (chars "u") (chars "p") (chars "0") ⟨.ok, .raise .auth⟩).2.closed = true ∧
    (run_parser_on_host ⟨chars "PS1428", chars "192.168.1.148", some (chars "u"), none⟩
      (chars "parser") (chars "0") 180 ⟨none, none, none, 22, false⟩
      ⟨.ok, .ok ⟨0, [], []⟩⟩).2.closed = true ∧
    (ssh_run (chars "192.168.1.148") (chars "u") (chars "p") (chars "0")
      ⟨.ok, .ok (chars "out")⟩).2.closed = true := by
  refine ⟨?_, ?_, ?_⟩
  · exact (connection_release_per_function ⟨chars "PS1428", chars "192.168.1.148"⟩
      (chars "u") (chars "p") (chars "0") (chars "192.168.1.148")
      ⟨.ok, .raise .auth⟩ ⟨.ok, .ok (chars "out")⟩
      ⟨chars "PS1428", chars "192.168.1.148", some (chars "u"), none⟩
      (chars "parser") (chars "0") 180 ⟨none, none, none, 22, false⟩
      ⟨.ok, .ok ⟨0, [], []⟩⟩).1 (by decide)
  · exact (connection_release_per_function ⟨chars "PS1428", chars "192.168.1.148"⟩
      (chars "u") (chars "p") (chars "0") (chars "192.168.1.148")
      ⟨.ok, .raise .auth⟩ ⟨.ok, .ok (chars "out")⟩
      ⟨chars "PS1428", chars "192.168.1.148", some (chars "u"), none⟩
      (chars "parser") (chars "0") 180 ⟨none, none, none, 22, false⟩
      ⟨.ok, .ok ⟨0, [], []⟩⟩).2.1 (by decide)
  · exact (connection_release_per_function ⟨chars "PS1428", chars "192.168.1.148"⟩
      (chars "u") (chars "p") (chars "0") (chars "192.168.1.148")
      ⟨.ok, .raise .auth⟩ ⟨.ok, .ok (chars "out")⟩
      ⟨chars "PS1428", chars "192.168.1.148", some (chars "u"), none⟩
      (chars "parser") (chars "0") 180 ⟨none, none, none, 22, false⟩
      ⟨.ok, .ok ⟨0, [], []⟩⟩).2.2 (some (pyStrip (chars "out"))) rfl rfl

/-- Claim C4 counterexample: a target with no username and no default is not
a pre-flight fatal error — the dispatch runs and records the failure as that
host's own result entry in the aggregate report. -/
theorem missing_identity_counterexample :
    dispatchResults [⟨chars "PS1428", chars "192.168.1.148", none, none⟩]
      (chars "parser") (chars "202511052000") 180 ⟨none, none, none, 22, false⟩
      (fun _ => ⟨.ok, .ok ⟨0, [], []⟩⟩) [0]
      = [⟨chars "PS1428", chars "192.168.1.148", none, 22, false, [],
          some noUsernameMsg, none⟩] := by
  decide

/-- Claim C4 (amended): a target with no login identity and no supplied
default does not halt the run; run_parser_on_host returns a per-host failed
result carrying the no-username error, and no network activity happens for
that host (zero connection attempts, nothing opened). -/
theorem missing_identity_per_host_result (host : HostEntry)
    (parser_text since_cutoff : List Char) (timeout_secs : Int)
    (defaults : Defaults) (env : HostEnv)
    (h : pyOrStrOpt host.username defaults.username = none
      ∨ pyOrStrOpt host.username defaults.username = some []) :
    (run_parser_on_host host parser_text since_cutoff timeout_secs defaults env).1.ok = false ∧
    (run_parser_on_host host parser_text since_cutoff timeout_secs defaults env).1.error
      = some noUsernameMsg ∧
    (run_parser_on_host host parser_text since_cutoff timeout_secs defaults env).2.connectAttempts
      = 0 ∧
    (run_parser_on_host host parser_text since_cutoff timeout_secs defaults env).2.opened
      = false := by
  rw [run_parser_on_host_no_username host parser_text since_cutoff timeout_secs defaults env h]
  exact ⟨rfl, rfl, rfl, rfl⟩

/-- Witness for the amended C4 at a concrete identity-less target. -/
theorem missing_identity_per_host_result_witness :
    (run_parser_on_host ⟨chars "PS1428", chars "192.168.1.148", none, none⟩
      (chars "parser") (chars "202511052000") 180 ⟨none, none, none, 22, false⟩
      ⟨.ok, .ok ⟨0, [], []⟩⟩).1.error = some noUsernameMsg ∧
    (run_parser_on_host ⟨chars "PS1428", chars "192.168.1.148", none, none⟩
      (chars "parser") (chars "202511052000") 180 ⟨none, none, none, 22, false⟩
      ⟨.ok, .ok ⟨0, [], []⟩⟩).2.connectAttempts = 0 := by
  refine ⟨?_, ?_⟩
  · exact (missing_identity_per_host_result _ _ _ _ _ _ (by decide)).2.1
  · exact (missing_identity_per_host_result _ _ _ _ _ _ (by decide)).2.2.1

/-- Claim C5 counterexample: a bare-address line does not yield a Target —
read_hosts raises ValueError because every line must have at least the two
fields name,ip. -/
theorem read_hosts_bare_address_counterexample :
    read_hosts (chars "10.0.0.5") = .error (hostLineError (chars "10.0.0.5")) := by
  rfl

/-- Claim C5 (amended): lines are name,ip[,username][,port] — a single-field
line makes read_hosts raise ValueError; the line 10.0.0.5,alice,2222 parses
as name 10.0.0.5, ip alice, username 2222 and no port; a blank line or a
line whose stripped form starts with # produces no entry and leaves the rest
of the file unchanged. -/
theorem read_hosts_line_format :
    read_hosts (chars "10.0.0.5") = .error (hostLineError (chars "10.0.0.5")) ∧
    read_hosts (chars "10.0.0.5,alice,2222")
      = .ok [⟨chars "10.0.0.5", chars "alice", some (chars "2222"), none⟩] ∧
    (∀ line rest, '\n' ∉ line →
      (pyStrip line = [] ∨ (pyStrip line).head? = some '#') →
      read_hosts (line ++ '\n' :: rest) = read_hosts rest) := by
  refine ⟨rfl, rfl, ?_⟩
  intro line rest hnl hskip
  have hcond : ((pyStrip line).isEmpty || ((pyStrip line).head? == some '#')) = true := by
    rcases hskip with h | h
    · rw [h]; rfl
    · rw [h]; simp
  unfold read_hosts
  rw [splitOnChar_append_cons '\n' line rest hnl]
  simp only [readHostLines, hcond, if_true]

/-- Witness for the amended C5: a comment line before a data line is
skipped. -/
theorem read_hosts_line_format_witness :
    read_hosts (chars "# comment" ++ '\n' :: chars "PS1,1.2.3.4")
      = read_hosts (chars "PS1,1.2.3.4") :=
  read_hosts_line_format.2.2 (chars "# comment") (chars "PS1,1.2.3.4")
    (by decide) (by decide)

/-- Claim C7: in the bounded pool model with concurrency conc and equal task
duration dur, at most conc tasks are ever in flight at once, and for n ≥ conc
tasks the makespan is at least the ceiling of n / conc times the duration. -/
theorem bounded_pool_concurrency (conc dur n t : Nat) (hc : 0 < conc) (hd : 0 < dur)
    (hn : conc ≤ n) :
    (inFlight conc dur n t).card ≤ conc ∧
    (n + conc - 1) / conc * dur ≤ poolMakespan conc dur n := by
  constructor
  · have hsub : inFlight conc dur n t ⊆
        Finset.Ico (t / dur * conc) (t / dur * conc + conc) := by
      intro i hi
      unfold inFlight at hi
      simp only [Finset.mem_filter, Finset.mem_range] at hi
      obtain ⟨hin, h1, h2⟩ := hi
      unfold poolStart at h1 h2
      have hq : t / dur = i / conc := by
        apply Nat.div_eq_of_lt_le
        · exact h1
        · rw [Nat.succ_mul]
          exact h2
      rw [Finset.mem_Ico]
      constructor
      · rw [hq]
        exact Nat.div_mul_le_self i conc
      · rw [hq]
        have hdm : i / conc * conc + i % conc = i := Nat.div_add_mod' i conc
        have hml := Nat.mod_lt i hc
        omega
    calc (inFlight conc dur n t).card
        ≤ (Finset.Ico (t / dur * conc) (t / dur * conc + conc)).card :=
          Finset.card_le_card hsub
      _ = conc := by rw [Nat.card_Ico]; omega
  · have hn1 : ¬(n = 0) := by omega
    unfold poolMakespan poolStart
    rw [if_neg hn1]
    have he : (n + conc - 1) / conc = (n - 1) / conc + 1 := by
      have h1 : n + conc - 1 = (n - 1) + conc := by omega
      rw [h1, Nat.add_div_right _ hc]
    rw [he, Nat.add_mul, one_mul]

/-- Witness for C7: five tasks of duration three on two workers — never more
than two in flight, and the dispatch takes at least nine time units. -/
theorem bounded_pool_concurrency_witness :
    (inFlight 2 3 5 0).card ≤ 2 ∧ (5 + 2 - 1) / 2 * 3 ≤ poolMakespan 2 3 5 :=
  bounded_pool_concurrency 2 3 5 0 (by decide) (by decide) (by decide)

/-! ### Round trip of the hosts file (C8) -/

theorem getLast?_append_right (a b : List Char) (hb : b ≠ []) :
    (a ++ b).getLast? = b.getLast? := by
  rw [List.getLast?_append]
  cases hbl : b.getLast? with
  | some d => rfl
  | none => exact absurd (List.getLast?_eq_none_iff.mp hbl) hb

theorem strip_since_line (s : List Char) (hne : s ≠ []) (hs : pyStrip s = s) :
    pyStrip (chars "SINCE=" ++ s) = chars "SINCE=" ++ s := by
  apply pyStrip_eq_self_of_ends
  · intro c hc
    have hh : (chars "SINCE=" ++ s).head? = some 'S' := rfl
    rw [hh] at hc
    injection hc with h
    subst h
    decide
  · intro c hc
    rw [getLast?_append_right _ _ hne] at hc
    exact getLast_not_space_of_strip s hs c hc

theorem strip_machine_line (n i : List Char) (hn : pyStrip n = n) (hi : pyStrip i = i) :
    pyStrip (n ++ ',' :: i) = n ++ ',' :: i := by
  apply pyStrip_eq_self_of_ends
  · intro c hc
    cases n with
    | nil =>
      simp only [List.nil_append, List.head?_cons, Option.some.injEq] at hc
      subst hc
      decide
    | cons a t =>
      simp only [List.cons_append, List.head?_cons, Option.some.injEq] at hc
      subst hc
      exact head_not_space_of_strip (a :: t) hn _ rfl
  · intro c hc
    rw [getLast?_append_right n (',' :: i) (by simp)] at hc
    cases i with
    | nil =>
      simp only [List.getLast?_singleton, Option.some.injEq] at hc
      subst hc
      decide
    | cons e es =>
      rw [List.getLast?_cons_cons] at hc
      exact getLast_not_space_of_strip (e :: es) hi c hc

theorem splitOnChar_flatten_lines (lines : List (List Char))
    (h : ∀ l ∈ lines, '\n' ∉ l) :
    splitOnChar '\n' ((lines.map (fun l => l ++ ['\n'])).flatten) = lines ++ [[]] := by
  induction lines with
  | nil => rfl
  | cons l ls ih =>
    have hl := h l (List.mem_cons_self _ _)
    have hls := fun x hx => h x (List.mem_cons_of_mem l hx)
    simp only [List.map_cons, List.flatten_cons]
    rw [show (l ++ ['\n']) ++ ((ls.map (fun l => l ++ ['\n'])).flatten)
        = l ++ '\n' :: ((ls.map (fun l => l ++ ['\n'])).flatten) from by
      simp [List.append_assoc]]
    rw [splitOnChar_append_cons '\n' _ _ hl, ih hls]
    rfl

theorem write_line_form (machines : List Machine)
    (h4 : ∀ m ∈ machines, normalize_name m.name = m.name ∧ ',' ∉ m.name ∧ '\n' ∉ m.name) :
    machines.map (fun m => normalize_name m.name ++ ',' :: m.ip ++ ['\n'])
      = (machines.map (fun m => m.name ++ ',' :: m.ip)).map (fun l => l ++ ['\n']) := by
  rw [List.map_map]
  apply List.map_congr_left
  intro m hm
  rw [(h4 m hm).1]
  simp [List.append_assoc]

theorem loadLines_write (since : List Char) (machines : List Machine)
    (h1 : since ≠ []) (h2 : '\n' ∉ since) (h3 : pyStrip since = since)
    (h4 : ∀ m ∈ machines, normalize_name m.name = m.name ∧ ',' ∉ m.name ∧ '\n' ∉ m.name)
    (h5 : ∀ m ∈ machines, pyStrip m.ip = m.ip ∧ ',' ∉ m.ip ∧ '\n' ∉ m.ip) :
    ((splitOnChar '\n' (HostsRepo.write since machines)).map pyStrip).filter
        (fun x => !x.isEmpty)
      = (chars "SINCE=" ++ since) :: machines.map (fun m => m.name ++ ',' :: m.ip) := by
  have hw : HostsRepo.write since machines
      = (((chars "SINCE=" ++ since) :: machines.map (fun m => m.name ++ ',' :: m.ip)).map
          (fun l => l ++ ['\n'])).flatten := by
    unfold HostsRepo.write
    rw [List.map_cons, List.flatten_cons, write_line_form machines h4]
    simp [List.append_assoc]
  rw [hw]
  have hnomem : ∀ l ∈ (chars "SINCE=" ++ since) ::
      machines.map (fun m => m.name ++ ',' :: m.ip), '\n' ∉ l := by
    intro l hl
    rcases List.mem_cons.mp hl with h | h
    · subst h
      intro hmem
      rcases List.mem_append.mp hmem with h | h
      · exact absurd h (by decide)
      · exact h2 h
    · obtain ⟨m, hm, hx⟩ := List.mem_map.mp h
      subst hx
      intro hmem
      rcases List.mem_append.mp hmem with h | h
      · exact (h4 m hm).2.2 h
      · rcases List.mem_cons.mp h with h | h
        · exact absurd h (by decide)
        · exact (h5 m hm).2.2 h
  rw [splitOnChar_flatten_lines _ hnomem]
  have hstrip1 : pyStrip (chars "SINCE=" ++ since) = chars "SINCE=" ++ since :=
    strip_since_line since h1 h3
  rw [List.map_append, List.map_cons, hstrip1]
  have hmapstrip : (machines.map (fun m => m.name ++ ',' :: m.ip)).map pyStrip
      = machines.map (fun m => m.name ++ ',' :: m.ip) := by
    rw [List.map_map]
    apply List.map_congr_left
    intro m hm
    exact strip_machine_line m.name m.ip
      (pyStrip_of_normalize_fix _ (h4 m hm).1) (h5 m hm).1
  rw [hmapstrip, List.filter_append]
  have hlast : (([[]] : List (List Char)).map pyStrip).filter (fun x => !x.isEmpty) = [] := rfl
  rw [hlast, List.append_nil]
  apply List.filter_eq_self.mpr
  intro a ha
  rcases List.mem_cons.mp ha with h | h
  · subst h
    rfl
  · obtain ⟨m, hm, hx⟩ := List.mem_map.mp h
    subst hx
    cases m.name with
    | nil => rfl
    | cons x xs => rfl

theorem machinesOf_map (machines : List Machine)
    (h4 : ∀ m ∈ machines, normalize_name m.name = m.name ∧ ',' ∉ m.name ∧ '\n' ∉ m.name)
    (h5 : ∀ m ∈ machines, pyStrip m.ip = m.ip ∧ ',' ∉ m.ip ∧ '\n' ∉ m.ip) :
    HostsRepo.machinesOf (machines.map (fun m => m.name ++ ',' :: m.ip)) = machines := by
  induction machines with
  | nil => rfl
  | cons m ms ih =>
    have hm4 := h4 m (List.mem_cons_self m ms)
    have hm5 := h5 m (List.mem_cons_self m ms)
    have hms4 := fun x hx => h4 x (List.mem_cons_of_mem m hx)
    have hms5 := fun x hx => h5 x (List.mem_cons_of_mem m hx)
    have hmem : ',' ∈ m.name ++ ',' :: m.ip :=
      List.mem_append.mpr (Or.inr (List.mem_cons_self _ _))
    unfold HostsRepo.machinesOf
    rw [List.map_cons]
    simp only [List.filterMap_cons, if_pos hmem,
      splitFirst_append_cons ',' m.name m.ip hm4.2.1, hm4.1, hm5.1]
    rw [show (⟨m.name, m.ip⟩ : Machine) = m from rfl]
    exact congrArg (List.cons m) (ih hms4 hms5)

theorem pyDecodeNewlines_one (c : Char) :
    pyDecodeNewlines [c] = if c = '\r' then ['\n'] else [c] := rfl

theorem pyDecodeNewlines_cons2 (c d : Char) (cs : List Char) :
    pyDecodeNewlines (c :: d :: cs) =
      if c = '\r' then
        (if d = '\n' then '\n' :: pyDecodeNewlines cs
         else '\n' :: pyDecodeNewlines (d :: cs))
      else c :: pyDecodeNewlines (d :: cs) := rfl

theorem pyDecodeNewlines_eq_self {l : List Char} (h : '\r' ∉ l) :
    pyDecodeNewlines l = l := by
  induction l with
  | nil => rfl
  | cons c cs ih =>
    have hc : ¬(c = '\r') := fun hcr => h (by rw [hcr]; exact List.mem_cons_self _ _)
    have hcs : '\r' ∉ cs := fun hm => h (List.mem_cons_of_mem c hm)
    cases cs with
    | nil => rw [pyDecodeNewlines_one, if_neg hc]
    | cons d cs2 => rw [pyDecodeNewlines_cons2, if_neg hc, ih hcs]

theorem write_no_cr (since : List Char) (machines : List Machine)
    (h6 : '\r' ∉ since)
    (h4 : ∀ m ∈ machines, normalize_name m.name = m.name)
    (h7 : ∀ m ∈ machines, '\r' ∉ m.name ∧ '\r' ∉ m.ip) :
    '\r' ∉ HostsRepo.write since machines := by
  unfold HostsRepo.write
  intro hmem
  rcases List.mem_append.mp hmem with h | h
  · rcases List.mem_append.mp h with h | h
    · exact absurd h (by decide)
    · exact h6 h
  · rcases List.mem_cons.mp h with h | h
    · exact absurd h (by decide)
    · obtain ⟨l, hl, hml⟩ := List.mem_flatten.mp h
      obtain ⟨m, hm, hx⟩ := List.mem_map.mp hl
      subst hx
      rw [h4 m hm] at hml
      rcases List.mem_append.mp hml with h | h
      · rcases List.mem_append.mp h with h | h
        · exact (h7 m hm).1 h
        · rcases List.mem_cons.mp h with h | h
          · exact absurd h (by decide)
          · exact (h7 m hm).2 h
      · rcases List.mem_cons.mp h with h | h
        · exact absurd h (by decide)
        · cases h

/-- Claim C8 counterexample: the round trip fails for inputs the claim
allows — a cutoff with trailing whitespace is stripped by load, and a
cutoff with an interior carriage return is cut short because the text-mode
reader also ends lines at CR; in both cases write then load returns a
different cutoff than was written although the cutoff was nonempty and
newline-free as the claim requires. -/
theorem hosts_repo_roundtrip_counterexample :
    HostsRepo.load (HostsRepo.write (chars "0 ") []) = (some (chars "0"), []) ∧
    (some (chars "0"), ([] : List Machine)) ≠ (some (chars "0 "), []) ∧
    HostsRepo.load (HostsRepo.write (chars "0\r0") []) = (some (chars "0"), []) ∧
    (some (chars "0"), ([] : List Machine)) ≠ (some (chars "0\r0"), []) := by
  refine ⟨by rfl, by decide, by rfl, by decide⟩

/-- Claim C8 (amended): the round trip holds once the cutoff is additionally
required to carry no leading or trailing whitespace and no carriage return
(the text-mode reader treats CR as a line ending too) — for every nonempty,
stripped cutoff free of LF and CR, and machines with normalized comma-free
names and stripped ips all free of LF and CR, load after write returns
exactly the written data. -/
theorem hosts_repo_roundtrip (since : List Char) (machines : List Machine)
    (h1 : since ≠ []) (h2 : '\n' ∉ since) (h3 : pyStrip since = since)
    (h4 : ∀ m ∈ machines, normalize_name m.name = m.name ∧ ',' ∉ m.name ∧ '\n' ∉ m.name)
    (h5 : ∀ m ∈ machines, pyStrip m.ip = m.ip ∧ ',' ∉ m.ip ∧ '\n' ∉ m.ip)
    (h6 : '\r' ∉ since)
    (h7 : ∀ m ∈ machines, '\r' ∉ m.name ∧ '\r' ∉ m.ip) :
    HostsRepo.load (HostsRepo.write since machines) = (some since, machines) := by
  unfold HostsRepo.load
  rw [pyDecodeNewlines_eq_self
    (write_no_cr since machines h6 (fun m hm => (h4 m hm).1) h7)]
  rw [loadLines_write since machines h1 h2 h3 h4 h5]
  have hpref : (chars "SINCE=").isPrefixOf (pyUpper (chars "SINCE=" ++ since)) = true := by
    have hupper : pyUpper (chars "SINCE=" ++ since) = chars "SINCE=" ++ pyUpper since := by
      unfold pyUpper
      rw [List.map_append]
      congr 1
    rw [hupper]
    exact List.isPrefixOf_iff_prefix.mpr (List.prefix_append _ _)
  simp only [hpref, if_true]
  have hsplit : splitFirst '=' (chars "SINCE=" ++ since) = (chars "SINCE", since) := by
    have hre : chars "SINCE=" ++ since = chars "SINCE" ++ '=' :: since := rfl
    rw [hre]
    exact splitFirst_append_cons '=' (chars "SINCE") since (by decide)
  rw [hsplit]
  rw [show (chars "SINCE", since).2 = since from rfl, h3,
      machinesOf_map machines h4 h5]

/-- Witness for the amended C8: a concrete cutoff and machine list round
trip exactly. -/
theorem hosts_repo_roundtrip_witness :
    HostsRepo.load (HostsRepo.write (chars "202512081900")
        [⟨chars "PS1234", chars "192.168.1.5"⟩])
      = (some (chars "202512081900"), [⟨chars "PS1234", chars "192.168.1.5"⟩]) :=
  hosts_repo_roundtrip (chars "202512081900") [⟨chars "PS1234", chars "192.168.1.5"⟩]
    (by decide) (by decide) (by decide) (by decide) (by decide) (by decide) (by decide)

/-! ### Shape of parse_since_input output (C10) -/

theorem daysInMonth_le_31 (y m : Nat) : daysInMonth y m ≤ 31 := by
  unfold daysInMonth
  split_ifs <;> omega

theorem mkDateTime_bounds {y m d h mi : Nat} {dtv : DateTimeM}
    (hmk : mkDateTime y m d h mi = some dtv) :
    1 ≤ dtv.year ∧ dtv.year ≤ 9999 ∧ dtv.month ≤ 12 ∧ dtv.day ≤ 31 ∧
      dtv.hour ≤ 23 ∧ dtv.minute ≤ 59 := by
  unfold mkDateTime at hmk
  split_ifs at hmk with hcond
  · injection hmk with hv
    subst hv
    obtain ⟨ha, hb, hc2, hd2, he2, hf, hg, hh2⟩ := hcond
    exact ⟨ha, hb, hd2, le_trans hf (daysInMonth_le_31 y m), hg, hh2⟩

theorem strptimeOk_bounds {sep : Char} {mid : MidSep} {wm : Bool} {s : List Char}
    {dtv : DateTimeM} (h : strptimeOk sep mid wm s = some dtv) :
    1 ≤ dtv.year ∧ dtv.year ≤ 9999 ∧ dtv.month ≤ 12 ∧ dtv.day ≤ 31 ∧
      dtv.hour ≤ 23 ∧ dtv.minute ≤ 59 := by
  unfold strptimeOk at h
  cases hr : strptimeRaw sep mid wm s with
  | none =>
    rw [hr] at h
    exact absurd h (by simp)
  | some raw =>
    rw [hr] at h
    obtain ⟨y, m, d, hh, mi, rest⟩ := raw
    by_cases hrest : rest = []
    · subst hrest
      simp only [if_pos rfl] at h
      exact mkDateTime_bounds h
    · simp only [if_neg hrest] at h
      exact Option.noConfusion h

theorem try_strptime_bounds {t : List Char} {dtv : DateTimeM}
    (h : try_strptime_formats t = some dtv) :
    1 ≤ dtv.year ∧ dtv.year ≤ 9999 ∧ dtv.month ≤ 12 ∧ dtv.day ≤ 31 ∧
      dtv.hour ≤ 23 ∧ dtv.minute ≤ 59 := by
  unfold try_strptime_formats at h
  cases h1 : strptimeOk '-' MidSep.ws true t with
  | some v =>
    simp only [h1, Option.some.injEq] at h
    subst h
    exact strptimeOk_bounds h1
  | none =>
    simp only [h1] at h
    cases h2 : strptimeOk '-' MidSep.tee true t with
    | some v =>
      simp only [h2, Option.some.injEq] at h
      subst h
      exact strptimeOk_bounds h2
    | none =>
      simp only [h2] at h
      cases h3 : strptimeOk '/' MidSep.ws true t with
      | some v =>
        simp only [h3, Option.some.injEq] at h
        subst h
        exact strptimeOk_bounds h3
      | none =>
        simp only [h3] at h
        cases h4 : strptimeOk '-' MidSep.ws false t with
        | some v =>
          simp only [h4, Option.some.injEq] at h
          subst h
          exact strptimeOk_bounds h4
        | none =>
          simp only [h4] at h
          exact strptimeOk_bounds h

theorem digitChar_isDigit {n : Nat} (h : n < 10) : (Nat.digitChar n).isDigit = true := by
  interval_cases n <;> decide

theorem yearDigits_spec {y : Nat} (h1 : 1 ≤ y) (h2 : y ≤ 9999) :
    (yearDigits y).all Char.isDigit = true ∧ 1 ≤ (yearDigits y).length ∧
      (yearDigits y).length ≤ 4 := by
  unfold yearDigits
  split_ifs with ha hb hc
  · have d1 := digitChar_isDigit (show y < 10 by omega)
    exact ⟨by simp [d1], by simp, by simp⟩
  · have d1 := digitChar_isDigit (show y / 10 < 10 by omega)
    have d2 := digitChar_isDigit (show y % 10 < 10 by omega)
    exact ⟨by simp [d1, d2], by simp, by simp⟩
  · have d1 := digitChar_isDigit (show y / 100 < 10 by omega)
    have d2 := digitChar_isDigit (show y / 10 % 10 < 10 by omega)
    have d3 := digitChar_isDigit (show y % 10 < 10 by omega)
    exact ⟨by simp [d1, d2, d3], by simp, by simp⟩
  · have d1 := digitChar_isDigit (show y / 1000 % 10 < 10 by omega)
    have d2 := digitChar_isDigit (show y / 100 % 10 < 10 by omega)
    have d3 := digitChar_isDigit (show y / 10 % 10 < 10 by omega)
    have d4 := digitChar_isDigit (show y % 10 < 10 by omega)
    exact ⟨by simp [d1, d2, d3, d4], by simp, by simp⟩

theorem pad2_spec {n : Nat} (h : n ≤ 99) :
    (pad2 n).all Char.isDigit = true ∧ (pad2 n).length = 2 := by
  unfold pad2
  have d1 := digitChar_isDigit (show n / 10 < 10 by omega)
  have d2 := digitChar_isDigit (show n % 10 < 10 by omega)
  exact ⟨by simp [d1, d2], rfl⟩

theorem strftime_shape {dtv : DateTimeM}
    (hb : 1 ≤ dtv.year ∧ dtv.year ≤ 9999 ∧ dtv.month ≤ 12 ∧ dtv.day ≤ 31 ∧
      dtv.hour ≤ 23 ∧ dtv.minute ≤ 59) :
    pyIsDigit (strftime_YmdHM dtv) = true ∧ 9 ≤ (strftime_YmdHM dtv).length ∧
      (strftime_YmdHM dtv).length ≤ 12 := by
  obtain ⟨h1, h2, h3, h4, h5, h6⟩ := hb
  obtain ⟨hy1, hy2, hy3⟩ := yearDigits_spec h1 h2
  obtain ⟨hm1, hm2⟩ := pad2_spec (show dtv.month ≤ 99 by omega)
  obtain ⟨hd1, hd2⟩ := pad2_spec (show dtv.day ≤ 99 by omega)
  obtain ⟨hh1, hh2⟩ := pad2_spec (show dtv.hour ≤ 99 by omega)
  obtain ⟨hi1, hi2⟩ := pad2_spec (show dtv.minute ≤ 99 by omega)
  have hlen : (strftime_YmdHM dtv).length = (yearDigits dtv.year).length + 8 := by
    unfold strftime_YmdHM
    simp [List.length_append, hm2, hd2, hh2, hi2]
  refine ⟨?_, by omega, by omega⟩
  unfold pyIsDigit
  rw [Bool.and_eq_true]
  constructor
  · have hne : (strftime_YmdHM dtv).isEmpty = false := by
      cases hsf : strftime_YmdHM dtv with
      | nil =>
        exfalso
        have := congrArg List.length hsf
        rw [hlen] at this
        simp at this
      | cons a t => rfl
    rw [hne]
    rfl
  · unfold strftime_YmdHM
    simp [List.all_append, hy1, hm1, hd1, hh1, hi1]

theorem pyIsDigit_not_empty {s : List Char} (h : pyIsDigit s = true) :
    s.isEmpty = false := by
  unfold pyIsDigit at h
  have h1 : (!s.isEmpty) = true := Bool.and_elim_left h
  cases hx : s.isEmpty with
  | false => rfl
  | true =>
    rw [hx] at h1
    cases h1

theorem parse_since_input_empty (s : List Char) (h : pyStrip s = []) :
    parse_since_input s = chars "0" := by
  simp only [parse_since_input, h]
  rfl

theorem parse_since_input_digits12 (s : List Char)
    (h1 : pyIsDigit (pyStrip s) = true) (h2 : (pyStrip s).length = 12) :
    parse_since_input s = pyStrip s := by
  have hemp := pyIsDigit_not_empty h1
  simp only [parse_since_input, hemp, h1, h2]
  rfl

theorem parse_since_input_digits10 (s : List Char)
    (h1 : pyIsDigit (pyStrip s) = true) (h2 : (pyStrip s).length = 10) :
    parse_since_input s = pyStrip s ++ chars "00" := by
  have hemp := pyIsDigit_not_empty h1
  simp only [parse_since_input, hemp, h1, h2]
  rfl

theorem parse_since_input_fallthrough (s : List Char)
    (hne : (pyStrip s).isEmpty = false)
    (hn12 : (pyIsDigit (pyStrip s) && (pyStrip s).length == 12) = false)
    (hn10 : (pyIsDigit (pyStrip s) && (pyStrip s).length == 10) = false) :
    parse_since_input s =
      match try_strptime_formats (pyStrip s) with
      | some dtv => strftime_YmdHM dtv
      | none => chars "0" := by
  simp only [parse_since_input, hne, hn12, hn10]
  rfl

/-- Claim C10 counterexample: a recognized date with a year below 1000 —
strptime accepts the four-digit year 0005 and strftime prints it without
padding, so the result is the nine-character digit string 501010000, neither
the string 0 nor twelve characters long. -/
theorem parse_since_input_short_year_counterexample :
    parse_since_input (chars "0005-01-01 00:00") = chars "501010000" ∧
    (chars "501010000").length = 9 ∧ chars "501010000" ≠ chars "0" := by
  refine ⟨by decide, by decide, by decide⟩

/-- Claim C10 (amended): parse_since_input is total and returns a digit
string — blank input yields 0, a twelve-digit input is returned as-is, a
ten-digit input is padded with 00, and in every case the result is either
the string 0 or a digit string of nine to twelve characters (twelve exactly
when the parsed year has four digits; a recognized date with year below
1000 gives the shorter form). -/
theorem parse_since_input_shape (s : List Char) :
    (pyStrip s = [] → parse_since_input s = chars "0") ∧
    (pyIsDigit (pyStrip s) = true → (pyStrip s).length = 12 →
      parse_since_input s = pyStrip s) ∧
    (pyIsDigit (pyStrip s) = true → (pyStrip s).length = 10 →
      parse_since_input s = pyStrip s ++ chars "00") ∧
    (parse_since_input s = chars "0" ∨
      (pyIsDigit (parse_since_input s) = true ∧ 9 ≤ (parse_since_input s).length ∧
        (parse_since_input s).length ≤ 12)) := by
  refine ⟨parse_since_input_empty s, parse_since_input_digits12 s,
    parse_since_input_digits10 s, ?_⟩
  by_cases hemp : (pyStrip s).isEmpty = true
  · left
    exact parse_since_input_empty s (by
      cases hx : pyStrip s with
      | nil => rfl
      | cons a t => rw [hx] at hemp; cases hemp)
  · have hne : (pyStrip s).isEmpty = false := by
      cases hx : (pyStrip s).isEmpty with
      | false => rfl
      | true => exact absurd hx hemp
    by_cases h12 : (pyIsDigit (pyStrip s) && (pyStrip s).length == 12) = true
    · right
      have hd : pyIsDigit (pyStrip s) = true := Bool.and_elim_left h12
      have hl : (pyStrip s).length = 12 := by
        have := Bool.and_elim_right h12
        exact beq_iff_eq.mp this
      rw [parse_since_input_digits12 s hd hl]
      exact ⟨hd, by omega, by omega⟩
    · have h12f : (pyIsDigit (pyStrip s) && (pyStrip s).length == 12) = false := by
        cases hx : (pyIsDigit (pyStrip s) && (pyStrip s).length == 12) with
        | false => rfl
        | true => exact absurd hx h12
      by_cases h10 : (pyIsDigit (pyStrip s) && (pyStrip s).length == 10) = true
      · right
        have hd : pyIsDigit (pyStrip s) = true := Bool.and_elim_left h10
        have hl : (pyStrip s).length = 10 := by
          have := Bool.and_elim_right h10
          exact beq_iff_eq.mp this
        rw [parse_since_input_digits10 s hd hl]
        refine ⟨?_, ?_, ?_⟩
        · unfold pyIsDigit at hd ⊢
          have hall : (pyStrip s).all Char.isDigit = true := Bool.and_elim_right hd
          rw [List.all_append, hall]
          cases hx : pyStrip s with
          | nil => rw [hx] at hl; cases hl
          | cons a t => rfl
        · rw [List.length_append, hl]
          decide
        · rw [List.length_append, hl]
          decide
      · have h10f : (pyIsDigit (pyStrip s) && (pyStrip s).length == 10) = false := by
          cases hx : (pyIsDigit (pyStrip s) && (pyStrip s).length == 10) with
          | false => rfl
          | true => exact absurd hx h10
        rw [parse_since_input_fallthrough s hne h12f h10f]
        cases hfmt : try_strptime_formats (pyStrip s) with
        | none => left; rfl
        | some dtv =>
          right
          exact strftime_shape (try_strptime_bounds hfmt)

/-- Witness for the amended C10: a twelve-digit input is returned as-is. -/
theorem parse_since_input_shape_witness :
    parse_since_input (chars "202512081900") = pyStrip (chars "202512081900") :=
  (parse_since_input_shape (chars "202512081900")).2.1 (by decide) (by decide)
